import Mathlib

/-!
Verification of the incremental-synchronization core of the
Atlassian-Confluence-Data-Pipeline repository.

This file shallowly embeds the relevant parts of the Python source:

* `src/utils/state_manager.py` (`StateManager.should_process_page`,
  `StateManager.update_page_state`) — the change-detection ledger;
* `src/api_client/confluence_client.py` (`_make_request`,
  `get_child_pages`, `_get_child_pages_recursive`, `get_pages_in_space`)
  — the retrying gateway and the page-tree resolver;
* `src/master_script.py` (`process_page`) — the export orchestrator.

Python dicts coming from the Confluence API are embedded as structures
carrying exactly the fields the embedded code reads; the persisted
state dict is an association list with newest-binding-first lookup,
matching Python dict assignment/lookup semantics for the operations the
code performs (the code never iterates the state dict, it only does
membership tests, key lookups and key assignment).
-/

namespace ConfluencePipeline

/-- The fragment of `page["version"]` the code reads:
`page["version"]["number"]` and `page["version"].get("when", "")`
(a missing `when` key is embedded as the empty string, which is what
`.get("when", "")` yields). -/
structure PageVersion where
  number : Nat
  when : String
deriving DecidableEq, Repr

/-- A page dict as returned by the Confluence API, restricted to the
fields the embedded code reads.  `childIds` is the list of ids found in
`page["children"]["page"]["results"]`; an absent/empty children block is
embedded as the empty list (the code only tests the block for
truthiness and reads the `id` of each result). -/
structure Page where
  id : String
  title : String
  spaceKey : String
  version : PageVersion
  childIds : List String
deriving DecidableEq, Repr

/-- The value stored per page id by `StateManager.update_page_state`:
`{"title": ..., "space_key": ..., "version": ..., "last_modified": ...,
"output_paths": ...}`. -/
structure OutputPaths where
  html : Option String := none
  pdf : Option String := none
deriving DecidableEq, Repr

structure LedgerEntry where
  title : String
  space_key : String
  version : Nat
  last_modified : String
  output_paths : OutputPaths
deriving DecidableEq, Repr

/-- The persisted state dict (`self.state`), keyed by page id.  Embedded
as an association list; key assignment prepends a binding and lookup
takes the newest binding, which agrees with Python dict semantics for
lookup, membership and assignment (the only operations performed). -/
def Ledger : Type := List (String × LedgerEntry)

instance : DecidableEq Ledger := by
  unfold Ledger
  infer_instance

/-- Python `self.state.get(page_id)` / `self.state[page_id]`. -/
def lookupEntry : Ledger → String → Option LedgerEntry
  | [], _ => none
  | (k, e) :: rest, pid => if pid = k then some e else lookupEntry rest pid

/-- Python `self.state[page_id] = entry`. -/
def insertEntry (st : Ledger) (pid : String) (e : LedgerEntry) : Ledger :=
  (pid, e) :: st

/-- The stored version for a page id, when an entry exists. -/
def storedVersion (st : Ledger) (pid : String) : Option Nat :=
  (lookupEntry st pid).map (·.version)

/-- Python truthiness of the `force_space` argument (`if force_space`):
`None` and the empty string are falsy. -/
def truthyStr : Option String → Bool
  | none => false
  | some s => !(s = "")

/-- Translation of `StateManager.should_process_page`
(src/utils/state_manager.py, lines 55-82), branch for branch.  `force_space` is an
optional string; both the force branch and the normal branch return
`False` exactly when the page id is in the state and the stored version
is `>=` the current version. -/
def shouldProcessPage (st : Ledger) (page : Page) (forceSpace : Option String) : Bool :=
  let pageId := page.id
  let currentVersion := page.version.number
  let spaceKey := page.spaceKey
  match forceSpace with
  | some fs =>
    if !(fs = "") ∧ spaceKey = fs then
      -- force branch: still check version to avoid unnecessary processing
      match lookupEntry st pageId with
      | some e => if e.version ≥ currentVersion then false else true
      | none => true
    else
      -- falls through to the normal branch
      match lookupEntry st pageId with
      | none => true
      | some e => if e.version < currentVersion then true else false
  | none =>
    match lookupEntry st pageId with
    | none => true
    | some e => if e.version < currentVersion then true else false

/-- Translation of `StateManager.update_page_state`
(src/utils/state_manager.py, lines 84-102): unconditionally upserts the
entry for `page.id` at the page's
current version.  The subsequent `save_state` call is durable-store
I/O with no effect on the in-memory mapping and is not modeled. -/
def updatePageState (st : Ledger) (page : Page) (outputPaths : OutputPaths) : Ledger :=
  insertEntry st page.id
    { title := page.title
      space_key := page.spaceKey
      version := page.version.number
      last_modified := page.version.when
      output_paths := outputPaths }

/-! ## Remote Content Gateway: `ConfluenceClient._make_request`
(src/api_client/confluence_client.py, lines 130-252)

The request loop is embedded over a *script*: the list of outcomes the
remote produces for the successive attempts.  Each loop iteration
consumes one script element.  The CAPTCHA / human-verification branch
(lines 171-183), which reads interactive input, is outside the scripted
alphabet; the embedding covers responses that are not challenge pages.
Sleeps are recorded by duration: the 429 branch sleeps
`retry_delay * 5` (line 214), and the loop top before every retried
attempt sleeps `retry_delay * 2^(retry_count-1) + jitter` (line 156),
where the random jitter draw is supplied as an input `jitter` function.
`refreshCalls` counts invocations of `refresh_session`; `_make_request`
contains no call to `refresh_session` (the method, defined at lines
89-97, has no call site anywhere in the repository), so every branch
reports the count from the rest of the run with no contribution of its
own. -/

inductive HttpResponse where
  | ok (body : Nat)
  | httpError (status : Nat)
  | connError
deriving DecidableEq, Repr

inductive ReqOutcome where
  | success (body : Nat)
  | httpFailure (status : Nat)
  | connFailure
  | noResponse
deriving DecidableEq, Repr

structure ReqTrace where
  attempts : Nat
  rateLimitSleeps : List Nat
  backoffSleeps : List Nat
  refreshCalls : Nat
deriving DecidableEq, Repr

/-- The retry loop of `_make_request`, parameterized by `retryDelay`
(source default 2), the jitter draws, and `maxRetries` (source default
3).  `retryCount` is the loop counter.  Status handling follows the
source: 429 retries while `retry_count < max_retries` with an extra
`retry_delay * 5` sleep; 5xx retries while `retry_count < max_retries`;
every other HTTP error (401, 403, 400, 404, 405, ...) raises
immediately; connection errors/timeouts retry while
`retry_count < max_retries`. -/
def makeRequestGo (retryDelay : Nat) (jitter : Nat → Nat) (maxRetries : Nat) :
    List HttpResponse → Nat → ReqOutcome × ReqTrace
  | [], _ => (.noResponse, ⟨0, [], [], 0⟩)
  | r :: rest, retryCount =>
    match r with
    | .ok body => (.success body, ⟨1, [], [], 0⟩)
    | .httpError status =>
      if status = 429 then
        if retryCount < maxRetries then
          let (out, tr) := makeRequestGo retryDelay jitter maxRetries rest (retryCount + 1)
          (out, ⟨tr.attempts + 1,
                 retryDelay * 5 :: tr.rateLimitSleeps,
                 (retryDelay * 2 ^ retryCount + jitter (retryCount + 1)) :: tr.backoffSleeps,
                 tr.refreshCalls⟩)
        else (.httpFailure 429, ⟨1, [], [], 0⟩)
      else if 500 ≤ status ∧ status < 600 then
        if retryCount < maxRetries then
          let (out, tr) := makeRequestGo retryDelay jitter maxRetries rest (retryCount + 1)
          (out, ⟨tr.attempts + 1,
                 tr.rateLimitSleeps,
                 (retryDelay * 2 ^ retryCount + jitter (retryCount + 1)) :: tr.backoffSleeps,
                 tr.refreshCalls⟩)
        else (.httpFailure status, ⟨1, [], [], 0⟩)
      else (.httpFailure status, ⟨1, [], [], 0⟩)
    | .connError =>
      if retryCount < maxRetries then
        let (out, tr) := makeRequestGo retryDelay jitter maxRetries rest (retryCount + 1)
        (out, ⟨tr.attempts + 1,
               tr.rateLimitSleeps,
               (retryDelay * 2 ^ retryCount + jitter (retryCount + 1)) :: tr.backoffSleeps,
               tr.refreshCalls⟩)
      else (.connFailure, ⟨1, [], [], 0⟩)

/-- Entry point of `_make_request`: the loop entered with
`retry_count = 0`. -/
def makeRequest (retryDelay : Nat) (jitter : Nat → Nat) (maxRetries : Nat)
    (script : List HttpResponse) : ReqOutcome × ReqTrace :=
  makeRequestGo retryDelay jitter maxRetries script 0

/-! ## Page Tree Resolver: `get_child_pages`, `_get_child_pages_recursive`,
`get_pages_in_space` (src/api_client/confluence_client.py)

The remote is embedded as a fetch oracle `Fetch`: the page (if any)
that `get_page_by_id` yields for a given id during this run.  Every
resolver function additionally returns the trace of ids passed to
`get_page_by_id`, so that fetch-count properties can be stated.  The
processed-id set is kept as a list (Python set membership and `add` are
the only operations used).  The recursive helper carries an explicit
`depth` bound on nested calls, which the Python code does not have; the
theorems below show the results the claims are about do not depend on
`depth`, which is the embedded form of "recursion terminates". -/

def Fetch : Type := String → Option Page

/-- One run of the `for child in parent_page["children"]["page"]["results"]`
loop shared by `get_child_pages` (lines 541-550), by
`_get_child_pages_recursive` (lines 592-606) and by
`get_pages_in_space` (lines 355-364): for each declared child id not in
the processed set, fetch it; on a truthy result add the *fetched*
page's id to the set and append the page; `g` is what the loop body
does after appending (the recursive grandchildren call in
`_get_child_pages_recursive`, nothing in the other two call sites).
Returns (pages collected, final processed set, fetch trace). -/
def childLoop (fetch : Fetch)
    (g : String → List String → List Page × List String × List String) :
    List String → List String → List Page × List String × List String
  | [], processed => ([], processed, [])
  | c :: cs, processed =>
    if c ∈ processed then childLoop fetch g cs processed
    else
      match fetch c with
      | none =>
        let (ps, pr, tr) := childLoop fetch g cs processed
        (ps, pr, c :: tr)
      | some childPage =>
        let processed1 := processed ++ [childPage.id]
        let (grand, processed2, tr1) := g childPage.id processed1
        let (ps, processed3, tr2) := childLoop fetch g cs processed2
        (childPage :: (grand ++ ps), processed3, c :: (tr1 ++ tr2))

/-- The loop body extension used where the source does not recurse. -/
def noDescend : String → List String → List Page × List String × List String :=
  fun _ processed => ([], processed, [])

/-- Translation of `ConfluenceClient._get_child_pages_recursive` (lines
564-608): fetch the page for `pageId` first (line 575); return `[]` if
the *fetched* page's id is already processed (lines 579-581); otherwise
mark it, return `[]` if it declares no children, else run the child
loop, recursing on each fetched child (which the loop has already
marked).  `depth` bounds nesting; `depth = 0` returns nothing without a
fetch. -/
def getChildPagesRecursive (fetch : Fetch) :
    Nat → String → List String → List Page × List String × List String
  | 0 => fun _ processed => ([], processed, [])
  | depth + 1 => fun pageId processed =>
      match fetch pageId with
      | none => ([], processed, [pageId])
      | some parent =>
        if parent.id ∈ processed then ([], processed, [pageId])
        else
          let processed1 := processed ++ [parent.id]
          if parent.childIds.isEmpty then ([], processed1, [pageId])
          else
            let (ps, processed2, tr) :=
              childLoop fetch (getChildPagesRecursive fetch depth)
                parent.childIds processed1
            (ps, processed2, pageId :: tr)

/-- The `for child_page in child_pages` loop of `get_child_pages`
(lines 555-559): call the recursive helper on each immediate child
already collected (and already in the processed set). -/
def grandLoop (fetch : Fetch) (depth : Nat) :
    List Page → List String → List Page × List String × List String
  | [], processed => ([], processed, [])
  | cp :: cps, processed =>
    let (gs, processed1, tr1) := getChildPagesRecursive fetch depth cp.id processed
    let (rest, processed2, tr2) := grandLoop fetch depth cps processed1
    (gs ++ rest, processed2, tr1 ++ tr2)

/-- Translation of `ConfluenceClient.get_child_pages` (lines 513-562):
fetch the parent; an untruthy result yields `[]`; otherwise collect the
parent, its not-yet-seen declared children via the child loop, and — if
`recursive` and at least one child was collected — whatever the
recursive helper adds for each collected child.  Returns (pages, fetch
trace). -/
def getChildPages (fetch : Fetch) (pageId : String) (recursive : Bool)
    (depth : Nat) : List Page × List String :=
  match fetch pageId with
  | none => ([], [pageId])
  | some parent =>
    let processed0 := [parent.id]
    if parent.childIds.isEmpty then ([parent], [pageId])
    else
      let (childPages, processed1, tr1) :=
        childLoop fetch noDescend parent.childIds processed0
      if recursive ∧ ¬childPages.isEmpty then
        let (grands, _, tr2) := grandLoop fetch depth childPages processed1
        (parent :: (childPages ++ grands), pageId :: (tr1 ++ tr2))
      else (parent :: childPages, pageId :: tr1)

/-- The listing-deduplication loop of `get_pages_in_space` (lines
330-336): keep the first page seen for each id.  The paginated listing
itself is passed in already concatenated in arrival order. -/
def dedupeListing : List Page → List String → List Page × List String
  | [], processed => ([], processed)
  | p :: ps, processed =>
    if p.id ∈ processed then dedupeListing ps processed
    else
      let (rest, processed1) := dedupeListing ps (processed ++ [p.id])
      (p :: rest, processed1)

/-- The child-expansion pass of `get_pages_in_space` (lines 348-364):
iterate over a copy of the deduplicated listing (pages appended during
the pass are not themselves iterated) and run the non-recursing child
loop for each. -/
def expandChildren (fetch : Fetch) :
    List Page → List String → List Page × List String × List String
  | [], processed => ([], processed, [])
  | p :: ps, processed =>
    let (cs, processed1, tr1) := childLoop fetch noDescend p.childIds processed
    let (rest, processed2, tr2) := expandChildren fetch ps processed1
    (cs ++ rest, processed2, tr1 ++ tr2)

/-- Translation of `ConfluenceClient.get_pages_in_space` (lines
296-367), downstream of pagination: deduplicate the listing, then, if
`recursive` and the listing was non-empty, expand the declared children
of the listed pages (depth 1 — the source performs no deeper descent
here).  Returns (pages, fetch trace). -/
def getPagesInSpace (fetch : Fetch) (listing : List Page) (recursive : Bool) :
    List Page × List String :=
  let (basePages, processed) := dedupeListing listing []
  if recursive ∧ ¬basePages.isEmpty then
    let (extra, _, tr) := expandChildren fetch basePages processed
    (basePages ++ extra, tr)
  else (basePages, [])

/-- Well-formedness of the remote: fetching a page id returns a page
carrying that id (the contract of `GET content/{id}`).  The source's
seen-set bookkeeping, which marks `child_page["id"]` after testing
`child["id"]`, silently relies on this. -/
def FetchConsistent (fetch : Fetch) : Prop :=
  ∀ pid p, fetch pid = some p → p.id = pid

/-- A small concrete page for examples. -/
def pageWith (i : String) (cs : List String) : Page :=
  { id := i, title := i, spaceKey := "DOCS", version := ⟨1, "2026-01-01"⟩,
    childIds := cs }

/-- A three-level chain: `A` declares child `B`, `B` declares child `C`
(`C` is a grandchild of `A`). -/
def exFetchChain : Fetch := fun s =>
  if s = "A" then some (pageWith "A" ["B"])
  else if s = "B" then some (pageWith "B" ["C"])
  else if s = "C" then some (pageWith "C" [])
  else none

/-! ## Export Orchestrator: `process_page` (src/master_script.py, lines 89-220) -/

/-- The per-page statistics dict initialized at the top of
`process_page`. -/
structure PStats where
  html_processed : Nat := 0
  html_skipped : Nat := 0
  html_failed : Nat := 0
  pdf_processed : Nat := 0
  pdf_skipped : Nat := 0
  pdf_failed : Nat := 0
deriving DecidableEq, Repr

/-- Translation of `process_page`.  The collaborators are embedded as
oracles for their outcomes on this call: `htmlResult` is what
`html_generator.generate_html` returns for this page (falsy on
failure — the generator catches its own exceptions and returns `None`),
and `pdfResult` is what `html_to_pdf_converter.convert_file` returns
(`None` on failure — the converter catches its own exceptions and
returns `None`, src/output_generator/html_to_pdf_converter.py).
`converterAvailable` embeds `html_to_pdf_converter` being non-`None`;
`htmlOnly` embeds the `--html` flag.  The PDF output-path computation
(lines 159-192, pure path-string manipulation and directory creation)
is summarized by the path the converter reports; the `content_type`
classification (lines 118-139) affects only logging and the output
subdirectory, not control flow or the committed entry, and is omitted.
Returns `(processed, stats, state)`. -/
def processPage (st : Ledger) (page : Page) (htmlResult : Option String)
    (pdfResult : Option String) (converterAvailable htmlOnly : Bool)
    (forceSpace : Option String) (forceProcess : Bool) :
    Bool × PStats × Ledger :=
  if ¬forceProcess ∧ shouldProcessPage st page forceSpace = false then
    (false, { html_skipped := 1, pdf_skipped := 1 }, st)
  else
    match htmlResult with
    | none => (false, { html_failed := 1, pdf_skipped := 1 }, st)
    | some htmlPath =>
      if ¬htmlOnly ∧ converterAvailable then
        match pdfResult with
        | some pdfPath =>
          (true, { html_processed := 1, pdf_processed := 1 },
           updatePageState st page { html := some htmlPath, pdf := some pdfPath })
        | none =>
          (true, { html_processed := 1, pdf_failed := 1 },
           updatePageState st page { html := some htmlPath, pdf := none })
      else
        (true, { html_processed := 1, pdf_skipped := 1 },
         updatePageState st page { html := some htmlPath, pdf := none })

/-- One orchestrated page visit: the page as the remote reported it in
this run, the collaborator outcomes, and the flags `main` passes to
`process_page`. -/
structure PipelineOp where
  page : Page
  htmlResult : Option String
  pdfResult : Option String
  converterAvailable : Bool
  htmlOnly : Bool
  forceSpace : Option String
  forceProcess : Bool
deriving DecidableEq, Repr

/-- The ledger after one `process_page` call. -/
def runStep (st : Ledger) (op : PipelineOp) : Ledger :=
  (processPage st op.page op.htmlResult op.pdfResult op.converterAvailable
    op.htmlOnly op.forceSpace op.forceProcess).2.2

/-- The ledger after a sequence of `process_page` calls — the per-page
loops of `main` (src/master_script.py), covering both the normal and
the first-sync `force_process=True` paths. -/
def runPipeline (ops : List PipelineOp) (st : Ledger) : Ledger :=
  ops.foldl runStep st

/-- Remote version monotonicity along a run: whenever the same page id
is served twice, the later page's version is not lower (the data
model's "version: monotonically increasing integer per page"). -/
def versionMonotone (ops : List PipelineOp) : Prop :=
  ops.Pairwise (fun a b => a.page.id = b.page.id →
    a.page.version.number ≤ b.page.version.number)

/-- A concrete successfully-processed visit for witnesses. -/
def exOp : PipelineOp :=
  { page := pageWith "A" [], htmlResult := some "out.html", pdfResult := none,
    converterAvailable := true, htmlOnly := false, forceSpace := none,
    forceProcess := true }

/-- A concrete forced visit of page `A` at version `n` for witnesses. -/
def exOpV (n : Nat) : PipelineOp :=
  { page := { id := "A", title := "A", spaceKey := "DOCS",
              version := ⟨n, ""⟩, childIds := [] },
    htmlResult := some "out.html", pdfResult := none,
    converterAvailable := true, htmlOnly := false, forceSpace := none,
    forceProcess := true }

/-- Characterization of `shouldProcessPage`: every branch computes the
same boolean, `false` iff an entry exists whose version is `≥` the
page's current version. -/
theorem shouldProcessPage_char (st : Ledger) (page : Page) (fs : Option String) :
    shouldProcessPage st page fs =
      match lookupEntry st page.id with
      | none => true
      | some e => decide (e.version < page.version.number) := by
  unfold shouldProcessPage
  cases fs with
  | none =>
    cases he : lookupEntry st page.id with
    | none => simp [he]
    | some e =>
      by_cases h : e.version < page.version.number <;> simp [he, h]
  | some s =>
    by_cases hb : ((!decide (s = "")) = true ∧ page.spaceKey = s)
    · cases he : lookupEntry st page.id with
      | none => simp [he, hb]
      | some e =>
        by_cases h : e.version < page.version.number
        · have hge : ¬ (e.version ≥ page.version.number) := by omega
          simp [he, hb, h, hge]
        · have hge : e.version ≥ page.version.number := by omega
          simp [he, hb, h, hge]
    · cases he : lookupEntry st page.id with
      | none => simp [he, hb]
      | some e =>
        by_cases h : e.version < page.version.number
        · simp [he, hb, h]
        · simp [he, hb, h]
          intro _ _
          omega

/-- C2: for every page and every ledger state, `should_process_page`
returns `false` if and only if the page's id is present in the ledger
and the stored version is greater than or equal to the page's current
version; this holds for every `force_space` argument (none, the page's
own space, or any other string), so a `force_space` value still applies
the same version check rather than bypassing it. -/
theorem c2_should_process_false_iff_stored_ge
    (st : Ledger) (page : Page) (fs : Option String) :
    shouldProcessPage st page fs = false ↔
      ∃ e, lookupEntry st page.id = some e ∧ page.version.number ≤ e.version := by
  rw [shouldProcessPage_char]
  cases he : lookupEntry st page.id with
  | none => simp
  | some e =>
    simp only [decide_eq_false_iff_not, Nat.not_lt, Option.some.injEq]
    constructor
    · intro h
      exact ⟨e, rfl, h⟩
    · rintro ⟨e', he', hv⟩
      cases he'
      exact hv

/-- C10: the boolean returned by `should_process_page` is independent of
the `force_space` argument — calling it with the page's own space, a
different space, or no space at all yields the identical result. -/
theorem c10_should_process_force_space_independent
    (st : Ledger) (page : Page) (fs₁ fs₂ : Option String) :
    shouldProcessPage st page fs₁ = shouldProcessPage st page fs₂ := by
  rw [shouldProcessPage_char, shouldProcessPage_char]

/-- Helper: a run of `k` rate-limit responses within the retry budget
is retried through, each retry with the fixed extra sleep of
`retry_delay * 5` plus the loop-top exponential backoff sleep, and the
following success payload is returned. -/
theorem makeRequestGo_rate_limit_run (retryDelay : Nat) (jitter : Nat → Nat)
    (maxRetries : Nat) :
    ∀ (k retryCount b : Nat) (rest : List HttpResponse),
      retryCount + k ≤ maxRetries →
      makeRequestGo retryDelay jitter maxRetries
        (List.replicate k (.httpError 429) ++ .ok b :: rest) retryCount
      = (.success b,
         ⟨k + 1, List.replicate k (retryDelay * 5),
          (List.range k).map
            (fun i => retryDelay * 2 ^ (retryCount + i) + jitter (retryCount + i + 1)),
          0⟩) := by
  intro k
  induction k with
  | zero =>
    intro rc b rest h
    simp [makeRequestGo]
  | succ k ih =>
    intro rc b rest h
    have hlt : rc < maxRetries := by omega
    have hrec := ih (rc + 1) b rest (by omega)
    have hlist :
        (retryDelay * 2 ^ rc + jitter (rc + 1)) ::
          List.map (fun i => retryDelay * 2 ^ (rc + 1 + i) + jitter (rc + 1 + i + 1))
            (List.range k)
        = List.map (fun i => retryDelay * 2 ^ (rc + i) + jitter (rc + i + 1))
            (List.range (k + 1)) := by
      rw [List.range_succ_eq_map, List.map_cons, List.map_map]
      refine congrArg₂ List.cons (by simp) ?_
      refine congrArg (fun f => List.map f (List.range k)) ?_
      funext i
      have h1 : rc + 1 + i = rc + (i + 1) := by omega
      simp only [Function.comp_apply]
      rw [h1]
    simp only [List.replicate_succ, List.cons_append, makeRequestGo, hlt, if_true,
      List.append_eq, hrec]
    rw [hlist]

/-- C7 (amended): on a sequence of `k` HTTP 429 responses followed by a
200 response, with `k` within the `max_retries` budget, the gateway
retries automatically — each retry sleeping the fixed `retry_delay * 5`
extra delay (independent of the attempt counter) on top of the ordinary
backoff sleep — and returns the eventual success payload; however each
429 retry increments the shared retry counter, so the run uses `k + 1`
attempts of the ordinary budget (the un-amended "not bounded by
`max_retries`" part is refuted by `c7_counterexample`). -/
theorem c7_429_retry_bounded_by_budget (retryDelay : Nat) (jitter : Nat → Nat)
    (maxRetries k b : Nat) (rest : List HttpResponse)
    (hk : k ≤ maxRetries) :
    makeRequest retryDelay jitter maxRetries
      (List.replicate k (.httpError 429) ++ .ok b :: rest)
    = (.success b,
       ⟨k + 1, List.replicate k (retryDelay * 5),
        (List.range k).map (fun i => retryDelay * 2 ^ i + jitter (i + 1)), 0⟩) := by
  have h := makeRequestGo_rate_limit_run retryDelay jitter maxRetries k 0 b rest (by omega)
  unfold makeRequest
  rw [h]
  simp

/-- C7 witness: two 429 responses then a 200 inside the default budget
of 3 are retried through and the payload is returned. -/
theorem c7_429_retry_witness :
    makeRequest 2 (fun _ => 0) 3
      (List.replicate 2 (.httpError 429) ++ .ok 7 :: [])
    = (.success 7,
       ⟨2 + 1, List.replicate 2 (2 * 5),
        (List.range 2).map (fun i => 2 * 2 ^ i + (fun _ : Nat => 0) (i + 1)), 0⟩) :=
  c7_429_retry_bounded_by_budget 2 (fun _ => 0) 3 2 7 [] (by decide)

/-- C7 counterexample: four 429 responses followed by a 200 with the
default `max_retries = 3` end in a terminal 429 failure — the success
payload 7 is never returned, so 429 retries are in fact bounded by and
counted against the ordinary `max_retries` budget. -/
theorem c7_429_exhausts_budget_counterexample :
    (makeRequest 2 (fun _ => 0) 3
        (List.replicate 4 (HttpResponse.httpError 429) ++ [HttpResponse.ok 7])).1
      = ReqOutcome.httpFailure 429
    ∧ (makeRequest 2 (fun _ => 0) 3
        (List.replicate 4 (HttpResponse.httpError 429) ++ [HttpResponse.ok 7])).1
      ≠ ReqOutcome.success 7 := by
  constructor
  · rfl
  · decide

/-- C6 (amended): a request whose response is HTTP 401 or 403 fails
immediately: no session refresh is invoked (the trace's `refreshCalls`
is 0 — `refresh_session` has no call site in `_make_request`), no
retry is attempted (exactly one attempt is consumed), and the status is
surfaced as the terminal failure, exactly as for the other
non-retryable client errors. -/
theorem c6_auth_error_fails_immediately (retryDelay : Nat) (jitter : Nat → Nat)
    (maxRetries status : Nat) (rest : List HttpResponse)
    (h : status = 401 ∨ status = 403) :
    makeRequest retryDelay jitter maxRetries (HttpResponse.httpError status :: rest)
      = (ReqOutcome.httpFailure status, ⟨1, [], [], 0⟩) := by
  rcases h with rfl | rfl <;> rfl

/-- C6 witness: a 403 response fails immediately with one attempt. -/
theorem c6_auth_error_witness :
    makeRequest 2 (fun _ => 0) 3 [HttpResponse.httpError 403]
      = (ReqOutcome.httpFailure 403, ⟨1, [], [], 0⟩) :=
  c6_auth_error_fails_immediately 2 (fun _ => 0) 3 403 [] (Or.inr rfl)

/-- C6 counterexample: on a 401 response followed by a response that
would succeed, the gateway makes exactly one attempt (no retry), never
invokes the session-refresh hook, and surfaces the 401 as a terminal
failure — refuting the claim that a 401/403 triggers one
refresh-and-retry cycle before failing. -/
theorem c6_no_refresh_retry_counterexample :
    (makeRequest 2 (fun _ => 0) 3
        [HttpResponse.httpError 401, HttpResponse.ok 5]).2.attempts = 1
    ∧ (makeRequest 2 (fun _ => 0) 3
        [HttpResponse.httpError 401, HttpResponse.ok 5]).2.refreshCalls = 0
    ∧ (makeRequest 2 (fun _ => 0) 3
        [HttpResponse.httpError 401, HttpResponse.ok 5]).1
      = ReqOutcome.httpFailure 401 := by
  refine ⟨rfl, rfl, rfl⟩

/-- Structure of the non-recursing child loop when the fetch oracle is
id-consistent: the final processed set is the initial one extended by
the collected ids, every collected id is fresh, and the collected ids
are pairwise distinct. -/
theorem childLoop_noDescend_spec (fetch : Fetch) (hC : FetchConsistent fetch) :
    ∀ (cs processed : List String),
      (childLoop fetch noDescend cs processed).2.1
        = processed ++ ((childLoop fetch noDescend cs processed).1.map Page.id)
      ∧ (∀ i ∈ (childLoop fetch noDescend cs processed).1.map Page.id, i ∉ processed)
      ∧ ((childLoop fetch noDescend cs processed).1.map Page.id).Nodup := by
  intro cs
  induction cs with
  | nil =>
    intro processed
    simp [childLoop]
  | cons c cs ih =>
    intro processed
    by_cases hc : c ∈ processed
    · simpa [childLoop, hc] using ih processed
    · cases hf : fetch c with
      | none =>
        simpa [childLoop, hc, hf] using ih processed
      | some childPage =>
        have hid : childPage.id = c := hC c childPage hf
        rcases hr : childLoop fetch noDescend cs (processed ++ [childPage.id])
          with ⟨ps, pr3, tr2⟩
        obtain ⟨ihA, ihB, ihC⟩ := ih (processed ++ [childPage.id])
        rw [hr] at ihA ihB ihC
        simp only at ihA ihB ihC
        simp only [childLoop, if_neg hc, hf, noDescend, hr, List.nil_append]
        refine ⟨?_, ?_, ?_⟩
        · simpa [List.append_assoc] using ihA
        · intro i hi
          simp only [List.map_cons, List.nil_append, List.mem_cons] at hi
          rcases hi with rfl | hi
          · rw [hid]; exact hc
          · have := ihB i (by simpa using hi)
            intro hip
            exact this (by simp [hip])
        · simp only [List.map_cons, List.nil_append, List.nodup_cons]
          refine ⟨?_, by simpa using ihC⟩
          intro hmem
          have := ihB childPage.id (by simpa using hmem)
          exact this (by simp)

/-- The recursive helper, called on an id already in the processed set,
adds no page and leaves the processed set unchanged (it does, however,
fetch its argument once — see the C8 counterexample). -/
theorem getChildPagesRecursive_inert (fetch : Fetch) (hC : FetchConsistent fetch)
    (depth : Nat) (pid : String) (processed : List String) (hmem : pid ∈ processed) :
    (getChildPagesRecursive fetch depth pid processed).1 = []
    ∧ (getChildPagesRecursive fetch depth pid processed).2.1 = processed := by
  cases depth with
  | zero => exact ⟨rfl, rfl⟩
  | succ d =>
    cases hf : fetch pid with
    | none => simp [getChildPagesRecursive, hf]
    | some parent =>
      have hid : parent.id = pid := hC pid parent hf
      simp [getChildPagesRecursive, hf, hid, hmem]

/-- The grandchild loop of `get_child_pages` adds no page when every
child it is run on is already in the processed set — which is how
`get_child_pages` always invokes it. -/
theorem grandLoop_inert (fetch : Fetch) (hC : FetchConsistent fetch) (depth : Nat) :
    ∀ (cps : List Page) (processed : List String),
      (∀ cp ∈ cps, cp.id ∈ processed) →
      (grandLoop fetch depth cps processed).1 = []
      ∧ (grandLoop fetch depth cps processed).2.1 = processed := by
  intro cps
  induction cps with
  | nil =>
    intro processed _
    exact ⟨rfl, rfl⟩
  | cons cp cps ih =>
    intro processed hall
    obtain ⟨h1, h2⟩ :=
      getChildPagesRecursive_inert fetch hC depth cp.id processed (hall cp (by simp))
    rcases hr : getChildPagesRecursive fetch depth cp.id processed with ⟨gs, pr1, tr1⟩
    rw [hr] at h1 h2
    simp only at h1 h2
    obtain ⟨ih1, ih2⟩ := ih processed (fun q hq => hall q (by simp [hq]))
    rcases hrest : grandLoop fetch depth cps processed with ⟨rest, pr2, tr2⟩
    rw [hrest] at ih1 ih2
    simp only at ih1 ih2
    simp [grandLoop, hr, h1, h2, hrest, ih1, ih2]

/-- The page list produced by `get_child_pages` does not depend on the
recursion toggle nor on the depth bound: it is always the parent plus
the deduplicated immediate children (the recursive-descent pass
contributes nothing). -/
theorem getChildPages_fst (fetch : Fetch) (hC : FetchConsistent fetch)
    (pid : String) (recursive : Bool) (depth : Nat) :
    (getChildPages fetch pid recursive depth).1
      = match fetch pid with
        | none => []
        | some parent =>
          if parent.childIds.isEmpty then [parent]
          else parent :: (childLoop fetch noDescend parent.childIds [parent.id]).1 := by
  cases hf : fetch pid with
  | none => simp [getChildPages, hf]
  | some parent =>
    by_cases hemp : parent.childIds.isEmpty
    · simp [getChildPages, hf, hemp]
    · rcases hr : childLoop fetch noDescend parent.childIds [parent.id]
        with ⟨childPages, pr1, tr1⟩
      obtain ⟨hA, _, _⟩ := childLoop_noDescend_spec fetch hC parent.childIds [parent.id]
      rw [hr] at hA
      simp only at hA
      have hall : ∀ cp ∈ childPages, cp.id ∈ pr1 := by
        intro cp hcp
        rw [hA]
        simp only [List.mem_append]
        exact Or.inr (List.mem_map_of_mem Page.id hcp)
      obtain ⟨hg1, _⟩ := grandLoop_inert fetch hC depth childPages pr1 hall
      rcases hgr : grandLoop fetch depth childPages pr1 with ⟨grands, pr2, tr2⟩
      rw [hgr] at hg1
      simp only at hg1
      simp only [getChildPages, hf, if_neg hemp, hr, hgr, hg1]
      by_cases hb : (recursive = true ∧ ¬childPages.isEmpty = true)
      · rw [if_pos hb]
        simp
      · rw [if_neg hb]

/-- Structure of the listing-deduplication loop: it extends the
processed set by exactly the kept ids, keeps only fresh ids, and keeps
each id once. -/
theorem dedupeListing_spec :
    ∀ (l : List Page) (processed : List String),
      (dedupeListing l processed).2
        = processed ++ ((dedupeListing l processed).1.map Page.id)
      ∧ (∀ i ∈ (dedupeListing l processed).1.map Page.id, i ∉ processed)
      ∧ ((dedupeListing l processed).1.map Page.id).Nodup := by
  intro l
  induction l with
  | nil =>
    intro processed
    simp [dedupeListing]
  | cons p ps ih =>
    intro processed
    by_cases hp : p.id ∈ processed
    · simpa [dedupeListing, hp] using ih processed
    · rcases hr : dedupeListing ps (processed ++ [p.id]) with ⟨rest, pr1⟩
      obtain ⟨ihA, ihB, ihC⟩ := ih (processed ++ [p.id])
      rw [hr] at ihA ihB ihC
      simp only at ihA ihB ihC
      simp only [dedupeListing, if_neg hp, hr]
      refine ⟨?_, ?_, ?_⟩
      · simpa [List.append_assoc] using ihA
      · intro i hi
        simp only [List.map_cons, List.mem_cons] at hi
        rcases hi with rfl | hi
        · exact hp
        · have := ihB i hi
          intro hip
          exact this (by simp [hip])
      · simp only [List.map_cons, List.nodup_cons]
        refine ⟨?_, ihC⟩
        intro hmem
        exact ihB p.id hmem (by simp)

/-- Structure of the child-expansion pass of `get_pages_in_space`:
collected ids are fresh, pairwise distinct, and extend the processed
set exactly. -/
theorem expandChildren_spec (fetch : Fetch) (hC : FetchConsistent fetch) :
    ∀ (ps : List Page) (processed : List String),
      (expandChildren fetch ps processed).2.1
        = processed ++ ((expandChildren fetch ps processed).1.map Page.id)
      ∧ (∀ i ∈ (expandChildren fetch ps processed).1.map Page.id, i ∉ processed)
      ∧ ((expandChildren fetch ps processed).1.map Page.id).Nodup := by
  intro ps
  induction ps with
  | nil =>
    intro processed
    simp [expandChildren]
  | cons p ps ih =>
    intro processed
    rcases hcl : childLoop fetch noDescend p.childIds processed with ⟨cs, pr1, tr1⟩
    obtain ⟨clA, clB, clC⟩ := childLoop_noDescend_spec fetch hC p.childIds processed
    rw [hcl] at clA clB clC
    simp only at clA clB clC
    rcases hre : expandChildren fetch ps pr1 with ⟨rest, pr2, tr2⟩
    obtain ⟨ihA, ihB, ihC⟩ := ih pr1
    rw [hre] at ihA ihB ihC
    simp only at ihA ihB ihC
    simp only [expandChildren, hcl, hre]
    refine ⟨?_, ?_, ?_⟩
    · rw [ihA, clA]
      simp [List.append_assoc]
    · intro i hi
      simp only [List.map_append, List.mem_append] at hi
      rcases hi with hi | hi
      · exact clB i hi
      · have := ihB i hi
        rw [clA] at this
        intro hip
        exact this (by simp [hip])
    · simp only [List.map_append, List.nodup_append]
      refine ⟨clC, ihC, ?_⟩
      intro i hi hir
      have := ihB i hir
      rw [clA] at this
      exact this (by simp [hi])

/-- The page-id list produced by `get_pages_in_space` is duplicate-free
for every listing (even one containing the same page twice) and every
id-consistent fetch oracle. -/
theorem getPagesInSpace_nodup (fetch : Fetch) (hC : FetchConsistent fetch)
    (listing : List Page) (recursive : Bool) :
    ((getPagesInSpace fetch listing recursive).1.map Page.id).Nodup := by
  rcases hd : dedupeListing listing [] with ⟨base, pr⟩
  obtain ⟨dA, _, dC⟩ := dedupeListing_spec listing []
  rw [hd] at dA dC
  simp only at dA dC
  rcases hex : expandChildren fetch base pr with ⟨extra, pr2, tr⟩
  obtain ⟨_, exB, exC⟩ := expandChildren_spec fetch hC base pr
  rw [hex] at exB exC
  simp only at exB exC
  simp only [getPagesInSpace, hd, hex]
  by_cases hb : (recursive = true ∧ ¬base.isEmpty = true)
  · rw [if_pos hb]
    simp only [List.map_append, List.nodup_append]
    refine ⟨dC, exC, ?_⟩
    intro i hi hie
    have := exB i hie
    rw [dA] at this
    exact this (by simp [hi])
  · rw [if_neg hb]
    exact dC

/-- The example chain oracle is id-consistent. -/
theorem exFetchChain_consistent : FetchConsistent exFetchChain := by
  intro pid p h
  unfold exFetchChain at h
  split_ifs at h with h1 h2 h3
  · injection h with h'
    rw [← h', h1]
    rfl
  · injection h with h'
    rw [← h', h2]
    rfl
  · injection h with h'
    rw [← h', h3]
    rfl

/-- C1: the claim that by-id resolution with recursion enabled returns
the page's full descendant subtree fails on the code.  On the concrete
remote where `A` has child `B` and `B` has child `C`, `get_child_pages`
for `A` with recursion enabled returns only `A` and `B`: the grandchild
`C` is never part of the result, because the recursive helper is always
invoked on ids its callers have already placed in `processed_ids` and
it returns `[]` for such ids.  This contradicts the function's own
docstring and comments ("If recursive, get grandchild pages",
"Recursively get grandchildren"), so the code, not the spec, is wrong
here. -/
theorem c1_grandchild_never_resolved :
    ((getChildPages exFetchChain "A" true 5).1.map Page.id = ["A", "B"])
    ∧ "C" ∉ ((getChildPages exFetchChain "A" true 5).1.map Page.id) := by
  constructor
  · rfl
  · decide

/-- C8 (amended): for every id-consistent fetch oracle — cyclic child
links included — resolution terminates (the result is independent of
the recursion-depth bound, whose every value, even 0, yields the same
pages) and the result contains each distinct page id exactly once, for
both `get_child_pages` and `get_pages_in_space`; a child link whose id
is already in the seen set contributes nothing.  The un-amended clause
"skipped *without being re-fetched*" is refuted by
`c8_seen_page_refetched_counterexample`: the recursive helper fetches
its (already-seen) argument page once before discarding it. -/
theorem c8_dedup_and_termination (fetch : Fetch) (hC : FetchConsistent fetch) :
    (∀ (pid : String) (recursive : Bool) (d₁ d₂ : Nat),
      (getChildPages fetch pid recursive d₁).1 = (getChildPages fetch pid recursive d₂).1)
    ∧ (∀ (pid : String) (recursive : Bool) (depth : Nat),
      ((getChildPages fetch pid recursive depth).1.map Page.id).Nodup)
    ∧ (∀ (listing : List Page) (recursive : Bool),
      ((getPagesInSpace fetch listing recursive).1.map Page.id).Nodup) := by
  refine ⟨?_, ?_, ?_⟩
  · intro pid recursive d₁ d₂
    rw [getChildPages_fst fetch hC pid recursive d₁,
      getChildPages_fst fetch hC pid recursive d₂]
  · intro pid recursive depth
    rw [getChildPages_fst fetch hC pid recursive depth]
    cases hf : fetch pid with
    | none => simp
    | some parent =>
      dsimp only
      by_cases hemp : parent.childIds.isEmpty
      · simp [hemp]
      · rw [if_neg hemp]
        rcases hr : childLoop fetch noDescend parent.childIds [parent.id]
          with ⟨childPages, pr1, tr1⟩
        obtain ⟨_, clB, clC⟩ := childLoop_noDescend_spec fetch hC parent.childIds [parent.id]
        rw [hr] at clB clC
        simp only at clB clC
        simp only [hr, List.map_cons, List.nodup_cons]
        refine ⟨?_, clC⟩
        intro hmem
        exact clB parent.id hmem (by simp)
  · intro listing recursive
    exact getPagesInSpace_nodup fetch hC listing recursive

/-- C8 witness: at the concrete chain oracle, the result pages are
independent of the depth bound and duplicate-free, and a listing
containing the same page twice is deduplicated. -/
theorem c8_dedup_and_termination_witness :
    ((getChildPages exFetchChain "A" true 1).1 = (getChildPages exFetchChain "A" true 7).1)
    ∧ ((getChildPages exFetchChain "A" true 2).1.map Page.id).Nodup
    ∧ ((getPagesInSpace exFetchChain
          [pageWith "A" ["B"], pageWith "A" ["B"]] true).1.map Page.id).Nodup :=
  ⟨(c8_dedup_and_termination exFetchChain exFetchChain_consistent).1 "A" true 1 7,
   (c8_dedup_and_termination exFetchChain exFetchChain_consistent).2.1 "A" true 2,
   (c8_dedup_and_termination exFetchChain exFetchChain_consistent).2.2
     [pageWith "A" ["B"], pageWith "A" ["B"]] true⟩

/-- C8 counterexample: resolving `A` (child `B`) with recursion fetches
the already-seen page `B` a second time — the fetch trace is
`[A, B, B]` — because `_get_child_pages_recursive` fetches its argument
page before consulting the processed set.  This refutes the claim's
clause that a page whose id is already in the seen set is skipped
*without being re-fetched*. -/
theorem c8_seen_page_refetched_counterexample :
    (getChildPages exFetchChain "A" true 1).2 = ["A", "B", "B"]
    ∧ ¬ ((getChildPages exFetchChain "A" true 1).2.count "B" ≤ 1) := by
  constructor
  · rfl
  · decide

/-- C9: for every id-consistent fetch oracle and every page id, by-id
resolution with recursion enabled returns exactly the same page list as
with recursion disabled (the root plus its directly declared children
only): the recursive-descent branch never adds a page, because each
recursive call is made on an id its caller has just placed in the
processed set and therefore returns an empty list. -/
theorem c9_recursion_toggle_no_effect (fetch : Fetch) (hC : FetchConsistent fetch)
    (pid : String) (depth : Nat) :
    (getChildPages fetch pid true depth).1 = (getChildPages fetch pid false depth).1 := by
  rw [getChildPages_fst fetch hC pid true depth,
    getChildPages_fst fetch hC pid false depth]

/-- C9 witness: at the concrete chain oracle. -/
theorem c9_recursion_toggle_witness :
    (getChildPages exFetchChain "A" true 3).1 = (getChildPages exFetchChain "A" false 3).1 :=
  c9_recursion_toggle_no_effect exFetchChain exFetchChain_consistent "A" 3

theorem lookupEntry_updatePageState_self (st : Ledger) (page : Page)
    (paths : OutputPaths) :
    lookupEntry (updatePageState st page paths) page.id
      = some { title := page.title, space_key := page.spaceKey,
               version := page.version.number, last_modified := page.version.when,
               output_paths := paths } := by
  simp [updatePageState, insertEntry, lookupEntry]

theorem lookupEntry_updatePageState_ne (st : Ledger) (page : Page)
    (paths : OutputPaths) (pid : String) (h : pid ≠ page.id) :
    lookupEntry (updatePageState st page paths) pid = lookupEntry st pid := by
  simp [updatePageState, insertEntry, lookupEntry, h]

/-- Outcome analysis of `process_page`: it either reports the page as
not processed and leaves the ledger untouched, or reports it processed
and commits exactly one upsert for this page. -/
theorem processPage_state_cases (st : Ledger) (page : Page) (hr pr : Option String)
    (ca ho : Bool) (fs : Option String) (fp : Bool) :
    ((processPage st page hr pr ca ho fs fp).1 = false
      ∧ (processPage st page hr pr ca ho fs fp).2.2 = st)
    ∨ ((processPage st page hr pr ca ho fs fp).1 = true
      ∧ ∃ paths, (processPage st page hr pr ca ho fs fp).2.2
          = updatePageState st page paths) := by
  by_cases hg : (fp = false ∧ shouldProcessPage st page fs = false)
  · left
    simp [processPage, hg]
  · cases hr with
    | none =>
      left
      simp [processPage, hg]
    | some h =>
      by_cases hc : (ho = false ∧ ca = true)
      · cases pr with
        | none =>
          right
          refine ⟨?_, ⟨{ html := some h, pdf := none }, ?_⟩⟩ <;>
            simp [processPage, hg, hc]
        | some p =>
          right
          refine ⟨?_, ⟨{ html := some h, pdf := some p }, ?_⟩⟩ <;>
            simp [processPage, hg, hc]
      · right
        refine ⟨?_, ⟨{ html := some h, pdf := none }, ?_⟩⟩ <;>
          simp [processPage, hg, hc]

theorem runStep_lookup_ne (st : Ledger) (op : PipelineOp) (pid : String)
    (h : pid ≠ op.page.id) :
    lookupEntry (runStep st op) pid = lookupEntry st pid := by
  rcases processPage_state_cases st op.page op.htmlResult op.pdfResult
      op.converterAvailable op.htmlOnly op.forceSpace op.forceProcess with
    ⟨_, h2⟩ | ⟨_, paths, h2⟩
  · unfold runStep
    rw [h2]
  · unfold runStep
    rw [h2]
    exact lookupEntry_updatePageState_ne st op.page paths pid h

/-- Visits of other page ids do not disturb a ledger entry. -/
theorem runPipeline_lookup_not_mem :
    ∀ (ops : List PipelineOp) (st : Ledger) (pid : String),
      pid ∉ ops.map (fun o => o.page.id) →
      lookupEntry (runPipeline ops st) pid = lookupEntry st pid := by
  intro ops
  induction ops with
  | nil =>
    intro st pid _
    rfl
  | cons op ops ih =>
    intro st pid hmem
    simp only [List.map_cons, List.mem_cons, not_or] at hmem
    have step : lookupEntry (runStep st op) pid = lookupEntry st pid :=
      runStep_lookup_ne st op pid hmem.1
    calc lookupEntry (runPipeline (op :: ops) st) pid
        = lookupEntry (runPipeline ops (runStep st op)) pid := rfl
      _ = lookupEntry (runStep st op) pid := ih (runStep st op) pid (by simpa using hmem.2)
      _ = lookupEntry st pid := step

/-- Every stored version in a run's final ledger is the version of one
of the visited pages with that id, unless it was already stored before
the run. -/
theorem storedVersion_run_from :
    ∀ (ops : List PipelineOp) (st : Ledger) (pid : String) (v : Nat),
      storedVersion (runPipeline ops st) pid = some v →
      (∃ op ∈ ops, op.page.id = pid ∧ op.page.version.number = v)
      ∨ storedVersion st pid = some v := by
  intro ops
  induction ops with
  | nil =>
    intro st pid v h
    exact Or.inr h
  | cons op ops ih =>
    intro st pid v h
    have h' : storedVersion (runPipeline ops (runStep st op)) pid = some v := h
    rcases ih (runStep st op) pid v h' with ⟨op', hop', hid, hv⟩ | hbase
    · exact Or.inl ⟨op', by simp [hop'], hid, hv⟩
    · rcases processPage_state_cases st op.page op.htmlResult op.pdfResult
          op.converterAvailable op.htmlOnly op.forceSpace op.forceProcess with
        ⟨_, h2⟩ | ⟨_, paths, h2⟩
      · right
        rwa [show runStep st op = st from h2] at hbase
      · by_cases hpid : pid = op.page.id
        · left
          refine ⟨op, by simp, hpid.symm, ?_⟩
          rw [show runStep st op = updatePageState st op.page paths from h2] at hbase
          rw [hpid] at hbase
          rw [storedVersion, lookupEntry_updatePageState_self] at hbase
          simpa using hbase
        · right
          rw [show runStep st op = updatePageState st op.page paths from h2] at hbase
          rwa [storedVersion, lookupEntry_updatePageState_ne st op.page paths pid hpid]
            at hbase

/-- Auxiliary induction for C4: if the ledger holds `v₁` for `pid` and
every remaining visit of `pid` carries a version `≥ v₁`, the stored
version never drops below `v₁`. -/
theorem storedVersion_run_mono :
    ∀ (ops : List PipelineOp) (st : Ledger) (pid : String) (v₁ : Nat),
      storedVersion st pid = some v₁ →
      (∀ op ∈ ops, op.page.id = pid → v₁ ≤ op.page.version.number) →
      versionMonotone ops →
      ∀ v₂, storedVersion (runPipeline ops st) pid = some v₂ → v₁ ≤ v₂ := by
  intro ops
  induction ops with
  | nil =>
    intro st pid v₁ hst _ _ v₂ h₂
    have h₂' : storedVersion st pid = some v₂ := h₂
    rw [hst] at h₂'
    injection h₂' with hv
    omega
  | cons op ops ih =>
    intro st pid v₁ hst hge hmono v₂ h₂
    have h₂' : storedVersion (runPipeline ops (runStep st op)) pid = some v₂ := h₂
    have hmono' : versionMonotone ops := (List.pairwise_cons.mp hmono).2
    have hrel : ∀ b ∈ ops, op.page.id = b.page.id →
        op.page.version.number ≤ b.page.version.number :=
      (List.pairwise_cons.mp hmono).1
    rcases processPage_state_cases st op.page op.htmlResult op.pdfResult
        op.converterAvailable op.htmlOnly op.forceSpace op.forceProcess with
      ⟨_, hsame⟩ | ⟨_, paths, hcommit⟩
    · refine ih (runStep st op) pid v₁ ?_ ?_ hmono' v₂ h₂'
      · rwa [show runStep st op = st from hsame]
      · intro op' hop' hid
        exact hge op' (by simp [hop']) hid
    · by_cases hpid : pid = op.page.id
      · have hv₁ : v₁ ≤ op.page.version.number := hge op (by simp) hpid.symm
        have hstored : storedVersion (runStep st op) pid
            = some op.page.version.number := by
          rw [show runStep st op = updatePageState st op.page paths from hcommit, hpid,
            storedVersion, lookupEntry_updatePageState_self]
          rfl
        have := ih (runStep st op) pid op.page.version.number hstored
          (fun op' hop' hid => hrel op' hop' (by rw [hid, hpid])) hmono' v₂ h₂'
        omega
      · refine ih (runStep st op) pid v₁ ?_ ?_ hmono' v₂ h₂'
        · rwa [show runStep st op = updatePageState st op.page paths from hcommit,
            storedVersion, lookupEntry_updatePageState_ne st op.page paths pid hpid]
        · intro op' hop' hid
          exact hge op' (by simp [hop']) hid

/-- C5: for a page that passed the processing guard (forced, or
accepted by `should_process_page`), the ledger commit happens exactly
when the HTML generation step succeeds: an HTML failure leaves the
ledger unchanged, counts an `html_failed` stat and reports the page not
processed (the PDF step is skipped); a PDF-conversion failure after
HTML success counts a `pdf_failed` stat but the commit still happens
and the page is reported processed; PDF success commits with both
paths. -/
theorem c5_commit_iff_html_success (st : Ledger) (page : Page)
    (pdfRes : Option String) (conv ho : Bool) (fs : Option String) (fp : Bool)
    (hGuard : fp = true ∨ shouldProcessPage st page fs = true) :
    (processPage st page none pdfRes conv ho fs fp
      = (false, { html_failed := 1, pdf_skipped := 1 }, st))
    ∧ (∀ h, processPage st page (some h) none true false fs fp
      = (true, { html_processed := 1, pdf_failed := 1 },
         updatePageState st page { html := some h, pdf := none }))
    ∧ (∀ h p, processPage st page (some h) (some p) true false fs fp
      = (true, { html_processed := 1, pdf_processed := 1 },
         updatePageState st page { html := some h, pdf := some p })) := by
  have hg : ¬(fp = false ∧ shouldProcessPage st page fs = false) := by
    rcases hGuard with h | h <;> simp [h]
  refine ⟨?_, ?_, ?_⟩
  · simp [processPage, hg]
  · intro h
    simp [processPage, hg]
  · intro h p
    simp [processPage, hg]

/-- C5 witness: at a concrete forced page, HTML failure leaves the
empty ledger empty with a failed stat, while HTML success with PDF
failure still commits. -/
theorem c5_commit_iff_html_witness :
    (processPage [] (pageWith "A" []) none none true false none true
      = (false, { html_failed := 1, pdf_skipped := 1 }, []))
    ∧ (processPage [] (pageWith "A" []) (some "out.html") none true false none true
      = (true, { html_processed := 1, pdf_failed := 1 },
         updatePageState [] (pageWith "A" []) { html := some "out.html", pdf := none })) :=
  ⟨(c5_commit_iff_html_success [] (pageWith "A" []) none true false none true
      (Or.inl rfl)).1,
   (c5_commit_iff_html_success [] (pageWith "A" []) none true false none true
      (Or.inl rfl)).2.1 "out.html"⟩

/-- C3: after a run in which a page was successfully processed and
committed, and whose later visits do not touch that page's id,
`should_process_page` returns `false` for that page (at the same
version) against the run's final ledger — so a second identical run
processes zero such pages. -/
theorem c3_second_run_skips_committed (st : Ledger) (ops l₁ l₂ : List PipelineOp)
    (op : PipelineOp) (fs : Option String)
    (hsplit : ops = l₁ ++ op :: l₂)
    (hAfter : op.page.id ∉ l₂.map (fun o => o.page.id))
    (hProcessed : (processPage (runPipeline l₁ st) op.page op.htmlResult
        op.pdfResult op.converterAvailable op.htmlOnly op.forceSpace
        op.forceProcess).1 = true) :
    shouldProcessPage (runPipeline ops st) op.page fs = false := by
  subst hsplit
  have hfold : runPipeline (l₁ ++ op :: l₂) st
      = runPipeline l₂ (runStep (runPipeline l₁ st) op) := by
    simp [runPipeline, List.foldl_append]
  rcases processPage_state_cases (runPipeline l₁ st) op.page op.htmlResult
      op.pdfResult op.converterAvailable op.htmlOnly op.forceSpace
      op.forceProcess with ⟨hfalse, _⟩ | ⟨_, paths, hcommit⟩
  · rw [hProcessed] at hfalse
    exact Bool.noConfusion hfalse
  · have hstored : lookupEntry (runStep (runPipeline l₁ st) op) op.page.id
        = some { title := op.page.title, space_key := op.page.spaceKey,
                 version := op.page.version.number,
                 last_modified := op.page.version.when, output_paths := paths } := by
      unfold runStep
      rw [hcommit]
      exact lookupEntry_updatePageState_self _ op.page paths
    have hpres : lookupEntry (runPipeline (l₁ ++ op :: l₂) st) op.page.id
        = lookupEntry (runStep (runPipeline l₁ st) op) op.page.id := by
      rw [hfold]
      exact runPipeline_lookup_not_mem l₂ _ op.page.id hAfter
    rw [shouldProcessPage_char, hpres, hstored]
    simp

/-- C3 witness: one forced successful visit of page `A`; afterwards
`should_process_page` rejects `A` at the same version. -/
theorem c3_second_run_witness :
    shouldProcessPage (runPipeline [exOp] []) exOp.page none = false :=
  c3_second_run_skips_committed [] [exOp] [] [] exOp none rfl (by simp) rfl

/-- C4: over every operation sequence of the pipeline starting from the
initial empty ledger — commits made under the first-sync
`force_process=True` path included — whose remote-served versions are
per-id non-decreasing (the data model's contract for `version`), the
stored version of every page id never decreases: the version stored
after any prefix of the run is `≤` the version stored at the end. -/
theorem c4_ledger_version_monotone (ops l₁ l₂ : List PipelineOp)
    (hsplit : ops = l₁ ++ l₂) (hm : versionMonotone ops)
    (pid : String) (v₁ v₂ : Nat)
    (h₁ : storedVersion (runPipeline l₁ []) pid = some v₁)
    (h₂ : storedVersion (runPipeline ops []) pid = some v₂) :
    v₁ ≤ v₂ := by
  subst hsplit
  have hsp := List.pairwise_append.mp hm
  rcases storedVersion_run_from l₁ [] pid v₁ h₁ with ⟨op₀, hop₀, hid₀, hv₀⟩ | hbase
  · have hfold : runPipeline (l₁ ++ l₂) [] = runPipeline l₂ (runPipeline l₁ []) := by
      simp [runPipeline, List.foldl_append]
    rw [hfold] at h₂
    refine storedVersion_run_mono l₂ (runPipeline l₁ []) pid v₁ h₁ ?_ hsp.2.1 v₂ h₂
    intro op hop hid
    have hrel := hsp.2.2 op₀ hop₀ op hop
    rw [← hv₀]
    exact hrel (by rw [hid₀, hid])
  · simp [storedVersion, lookupEntry] at hbase

/-- C4 witness: page `A` committed at version 1 (forced), then at
version 2; the stored version goes from 1 to 2, never down. -/
theorem c4_ledger_version_monotone_witness :
    storedVersion (runPipeline [exOpV 1] []) "A" = some 1
    ∧ storedVersion (runPipeline [exOpV 1, exOpV 2] []) "A" = some 2
    ∧ (1 : Nat) ≤ 2 :=
  ⟨rfl, rfl,
   c4_ledger_version_monotone [exOpV 1, exOpV 2] [exOpV 1] [exOpV 2] rfl
     (by
       unfold versionMonotone
       constructor
       · intro b hb
         simp only [List.mem_singleton] at hb
         subst hb
         intro _
         simp [exOpV]
       · simp)
     "A" 1 2 rfl rfl⟩

end ConfluencePipeline
